import Mathlib

/-!
Verification of the environment-loading backend in `src/src-tauri/src/lib.rs`.

Strings are modelled as `List Char`; the process environment as a function
from variable names to optional values; the filesystem as an abstract,
ordered list of candidate records carrying the outcome of path
canonicalization, the existence check, and the file read.  The whitespace
predicate used by Rust's `str::trim` is modelled by `Char.isWhitespace`
(ASCII whitespace; the claims do not involve non-ASCII whitespace).
-/

namespace VoiceTranscription

/-- Strings, modelled as lists of characters. -/
abbrev Str := List Char

/-- Whitespace predicate used by `str::trim`. -/
def isWhite (c : Char) : Bool := c.isWhitespace

/-- `str::trim_start`: remove leading whitespace. -/
def trimStart (s : Str) : Str := s.dropWhile isWhite

/-- `str::trim_end`: remove trailing whitespace. -/
def trimEnd (s : Str) : Str := (s.reverse.dropWhile isWhite).reverse

/-- `str::trim`: remove leading and trailing whitespace. -/
def trim (s : Str) : Str := trimEnd (trimStart s)

/-- `str::trim_matches(c)`: remove ALL leading and ALL trailing occurrences
of the character `c` (not just one layer, and not necessarily matched). -/
def trimMatchesChar (c : Char) (s : Str) : Str :=
  ((s.dropWhile (fun x => x = c)).reverse.dropWhile (fun x => x = c)).reverse

/-- `str::starts_with(c)` for a character pattern. -/
def startsWithChar (c : Char) : Str → Bool
  | [] => false
  | x :: _ => x = c

/-- `str::split_once(c)`: split at the first occurrence of `c`, returning
the parts before and after it, or `none` when `c` does not occur. -/
def splitOnce (c : Char) : Str → Option (Str × Str)
  | [] => none
  | x :: xs =>
    if x = c then some ([], xs)
    else
      match splitOnce c xs with
      | none => none
      | some (a, b) => some (x :: a, b)

/-- Process environment state: a map from variable names to values. -/
def Env : Type := Str → Option Str

/-- `std::env::set_var`: install a value, overwriting any prior one. -/
def setVar (env : Env) (k v : Str) : Env :=
  fun q => if q = k then some v else env q

/-- The entry one line of the file installs, if any: the body of the
per-line loop of `load_env_file` (trim, skip blank and `#` lines, split at
the first `=`, trim the key, trim and quote-strip the value, skip empty
keys). -/
def parseEntry (rawLine : Str) : Option (Str × Str) :=
  let line := trim rawLine
  if line.isEmpty || startsWithChar '#' line then none
  else
    match splitOnce '=' line with
    | none => none
    | some (key, value) =>
      let key := trim key
      let value := trimMatchesChar '\'' (trimMatchesChar '"' (trim value))
      if key.isEmpty then none else some (key, value)

/-- One iteration of the line loop of `load_env_file`: install the line's
entry into the environment, or leave the environment unchanged. -/
def processLine (env : Env) (rawLine : Str) : Env :=
  match parseEntry rawLine with
  | none => env
  | some (k, v) => setVar env k v

/-- The line loop of `load_env_file` over a list of lines. -/
def processLines : List Str → Env → Env
  | [], env => env
  | l :: ls, env => processLines ls (processLine env l)

/-- `str::split_inclusive(c)`: pieces of the string, each ending with `c`
except possibly the last; the empty string yields no pieces. -/
def splitInclusive (c : Char) : Str → List Str
  | [] => []
  | x :: xs =>
    if x = c then [x] :: splitInclusive c xs
    else
      match splitInclusive c xs with
      | [] => [[x]]
      | l :: ls => (x :: l) :: ls

/-- Strip one trailing `"\n"` or `"\r\n"` from a piece, as `str::lines`
does (a `'\r'` is removed only when a `'\n'` followed it). -/
def dropLineEnding (l : Str) : Str :=
  if l.getLast? = some '\n' then
    let l' := l.dropLast
    if l'.getLast? = some '\r' then l'.dropLast else l'
  else l

/-- `str::lines`: split at `'\n'`, keeping no trailing empty line and
stripping a `'\r'` that preceded each `'\n'`. -/
def rustLines (s : Str) : List Str :=
  (splitInclusive '\n' s).map dropLineEnding

/-- Parse one successfully read file content: the whole inner parsing pass
of `load_env_file`. -/
def processContents (contents : Str) (env : Env) : Env :=
  processLines (rustLines contents) env

/-- One candidate `.env` location, with the outcomes of the three
filesystem probes `load_env_file` performs on it: `canonicalize` (the
resolved path, or `none` on failure), `exists` on the resolved path, and
`read_to_string` (the content, or `none` on failure). -/
structure Candidate where
  canonical : Option Str
  pathExists : Bool
  readResult : Option Str

/-- A candidate that `load_env_file` skips: resolution failed, or the
resolved path does not exist, or the read failed. -/
def candFails (c : Candidate) : Prop :=
  c.canonical = none ∨ c.pathExists = false ∨ c.readResult = none

instance (c : Candidate) : Decidable (candFails c) := by
  unfold candFails; infer_instance

/-- `load_env_file`: walk the ordered candidate list; on the first
candidate that resolves, exists and reads, parse its content and stop.
Returns the new environment and the resolved path of the loaded file
(`none` when no candidate was loaded). -/
def load_env_file : List Candidate → Env → Env × Option Str
  | [], env => (env, none)
  | c :: rest, env =>
    match c.canonical with
    | none => load_env_file rest env
    | some path =>
      if c.pathExists then
        match c.readResult with
        | some contents => (processContents contents env, some path)
        | none => load_env_file rest env
      else load_env_file rest env

/-- The diagnostic line `load_env_file` prints, as a function of which
file (if any) was loaded. -/
def envMessage : Option Str → Str
  | some p => ("Loaded .env from: ").data ++ p
  | none => ("No .env file found").data

/-- The well-known variable name. -/
def DEEPGRAM_API_KEY : Str := ("DEEPGRAM_API_KEY").data

/-- The fixed user-facing message of the key accessor's error path. -/
def missingKeyMessage : Str :=
  ("DEEPGRAM_API_KEY environment variable not set. Please set it before running the app.").data

/-- `get_deepgram_api_key`: look up `DEEPGRAM_API_KEY`, mapping absence to
the fixed error message. -/
def get_deepgram_api_key (env : Env) : Except Str Str :=
  match env DEEPGRAM_API_KEY with
  | some v => Except.ok v
  | none => Except.error missingKeyMessage

/-- `is_api_key_configured`: whether `DEEPGRAM_API_KEY` is set. -/
def is_api_key_configured (env : Env) : Bool :=
  (env DEEPGRAM_API_KEY).isSome

/-- Whether an `Except` result is the success case. -/
def exceptIsOk : Except Str Str → Bool
  | Except.ok _ => true
  | Except.error _ => false

/-- The empty starting environment, used in concrete witnesses. -/
def env0 : Env := fun _ => none

/-- The value the file's last line carrying key `k` installs, if any:
used to state the last-occurrence-wins property. -/
def lastEntry : List Str → Str → Option Str
  | [], _ => none
  | l :: rest, k =>
    match lastEntry rest k with
    | some v => some v
    | none =>
      match parseEntry l with
      | some kv => if k = kv.1 then some kv.2 else none
      | none => none

/-! ### Helper lemmas -/

theorem dropWhile_eq_self_of_head (p : Char → Bool) (l : Str)
    (h : ∀ a, l.head? = some a → p a = false) : l.dropWhile p = l := by
  cases l with
  | nil => rfl
  | cons a t =>
    have hp : ¬ p a = true := by simp [h a rfl]
    simp [List.dropWhile_cons_of_neg hp]

theorem trimStart_eq_self (s : Str) (h : ∀ a, s.head? = some a → isWhite a = false) :
    trimStart s = s :=
  dropWhile_eq_self_of_head _ s h

theorem trimEnd_eq_self (s : Str) (h : ∀ a, s.getLast? = some a → isWhite a = false) :
    trimEnd s = s := by
  unfold trimEnd
  rw [dropWhile_eq_self_of_head, List.reverse_reverse]
  intro a ha
  exact h a (by rwa [List.head?_reverse] at ha)

theorem trim_eq_self (s : Str)
    (h1 : ∀ a, s.head? = some a → isWhite a = false)
    (h2 : ∀ a, s.getLast? = some a → isWhite a = false) :
    trim s = s := by
  unfold trim
  rw [trimStart_eq_self s h1, trimEnd_eq_self s h2]

theorem trimMatchesChar_eq_self (c : Char) (s : Str)
    (h1 : s.head? ≠ some c) (h2 : s.getLast? ≠ some c) :
    trimMatchesChar c s = s := by
  unfold trimMatchesChar
  have e1 : List.dropWhile (fun x => x = c) s = s := by
    apply dropWhile_eq_self_of_head
    intro a ha
    have hac : a ≠ c := fun e => h1 (e ▸ ha)
    simp [hac]
  rw [e1]
  have e2 : List.dropWhile (fun x => x = c) s.reverse = s.reverse := by
    apply dropWhile_eq_self_of_head
    intro a ha
    rw [List.head?_reverse] at ha
    have hac : a ≠ c := fun e => h2 (e ▸ ha)
    simp [hac]
  rw [e2, List.reverse_reverse]

theorem trimMatchesChar_wrap (c : Char) (s : Str)
    (h1 : s.head? ≠ some c) (h2 : s.getLast? ≠ some c) :
    trimMatchesChar c (c :: (s ++ [c])) = s := by
  unfold trimMatchesChar
  rw [List.dropWhile_cons_of_pos (by simp)]
  cases s with
  | nil => simp [List.dropWhile]
  | cons a t =>
    have hac : a ≠ c := fun e => h1 (by simp [e])
    rw [List.cons_append, List.dropWhile_cons_of_neg (by simp [hac])]
    rw [show a :: (t ++ [c]) = (a :: t) ++ [c] from rfl, List.reverse_append]
    rw [show ([c].reverse ++ (a :: t).reverse) = c :: (a :: t).reverse by simp]
    rw [List.dropWhile_cons_of_pos (by simp)]
    have e2 : List.dropWhile (fun x => x = c) (a :: t).reverse = (a :: t).reverse := by
      apply dropWhile_eq_self_of_head
      intro b hb
      rw [List.head?_reverse] at hb
      have hbc : b ≠ c := fun e => h2 (e ▸ hb)
      simp [hbc]
    rw [e2, List.reverse_reverse]

theorem splitOnce_eq_none_iff (c : Char) (l : Str) :
    splitOnce c l = none ↔ c ∉ l := by
  induction l with
  | nil => simp [splitOnce]
  | cons x xs ih =>
    by_cases hx : x = c
    · subst hx; simp [splitOnce]
    · rw [show splitOnce c (x :: xs) =
          (match splitOnce c xs with
           | none => none
           | some (a, b) => some (x :: a, b)) by simp [splitOnce, hx]]
      cases h : splitOnce c xs with
      | none =>
        have hnx : ¬ (c = x ∨ c ∈ xs) := by
          rintro (hc | hc)
          · exact hx hc.symm
          · exact (ih.mp h) hc
        simp [List.mem_cons, hnx]
      | some p =>
        obtain ⟨a, b⟩ := p
        have hmem : c ∈ xs := by
          by_contra hm
          have h2 := ih.mpr hm
          rw [h] at h2
          exact Option.noConfusion h2
        simp [List.mem_cons, hmem]

theorem splitOnce_eq_some (c : Char) :
    ∀ (l a b : Str), splitOnce c l = some (a, b) → l = a ++ c :: b ∧ c ∉ a := by
  intro l
  induction l with
  | nil => intro a b h; cases h
  | cons x xs ih =>
    intro a b h
    by_cases hx : x = c
    · rw [show splitOnce c (x :: xs) = some ([], xs) by simp [splitOnce, hx]] at h
      injection h with h'
      have ha : a = [] := (congrArg Prod.fst h').symm
      have hb : b = xs := (congrArg Prod.snd h').symm
      subst ha; subst hb
      exact ⟨by simp [hx], by simp⟩
    · rw [show splitOnce c (x :: xs) =
          (match splitOnce c xs with
           | none => none
           | some (a, b) => some (x :: a, b)) by simp [splitOnce, hx]] at h
      cases hs : splitOnce c xs with
      | none => rw [hs] at h; cases h
      | some p =>
        obtain ⟨a', b'⟩ := p
        rw [hs] at h
        injection h with h'
        have ha : a = x :: a' := (congrArg Prod.fst h').symm
        have hb : b = b' := (congrArg Prod.snd h').symm
        obtain ⟨hxs, hna⟩ := ih a' b' hs
        constructor
        · rw [ha, hb, List.cons_append, ← hxs]
        · rw [ha]
          intro hmem
          rcases List.mem_cons.mp hmem with hc | hc
          · exact hx hc.symm
          · exact hna hc

theorem mem_of_mem_trim {a : Char} {s : Str} (h : a ∈ trim s) : a ∈ s := by
  unfold trim trimEnd trimStart at h
  rw [List.mem_reverse] at h
  have h2 : a ∈ (List.dropWhile isWhite s).reverse := List.dropWhile_subset _ h
  rw [List.mem_reverse] at h2
  exact List.dropWhile_subset _ h2

theorem processLines_append (xs ys : List Str) (env : Env) :
    processLines (xs ++ ys) env = processLines ys (processLines xs env) := by
  induction xs generalizing env with
  | nil => rfl
  | cons l t ih =>
    show processLines (t ++ ys) (processLine env l) = _
    exact ih (processLine env l)

theorem processLines_lookup (ls : List Str) (env : Env) (k : Str) :
    processLines ls env k = (lastEntry ls k).or (env k) := by
  induction ls generalizing env with
  | nil => rfl
  | cons l rest ih =>
    show processLines rest (processLine env l) k = _
    rw [ih]
    cases h : lastEntry rest k with
    | some v =>
      rw [show lastEntry (l :: rest) k = some v by simp [lastEntry, h]]
      simp [Option.or_some]
    | none =>
      rw [show lastEntry (l :: rest) k =
          (match parseEntry l with
           | some kv => if k = kv.1 then some kv.2 else none
           | none => none) by simp [lastEntry, h]]
      rw [Option.none_or]
      unfold processLine
      cases hp : parseEntry l with
      | none => simp
      | some kv =>
        obtain ⟨k', v⟩ := kv
        show setVar env k' v k = _
        unfold setVar
        by_cases hk : k = k' <;> simp [hk]

theorem processLines_idem (ls : List Str) (env : Env) :
    processLines ls (processLines ls env) = processLines ls env := by
  funext k
  rw [processLines_lookup, processLines_lookup]
  cases lastEntry ls k <;> simp

theorem processContents_idem (contents : Str) (env : Env) :
    processContents contents (processContents contents env) = processContents contents env :=
  processLines_idem _ _

theorem load_skip_one (cd : Candidate) (l : List Candidate) (env : Env)
    (h : candFails cd) :
    load_env_file (cd :: l) env = load_env_file l env := by
  rcases h with h | h | h
  · simp [load_env_file, h]
  · cases hc : cd.canonical with
    | none => simp [load_env_file, hc]
    | some p => simp [load_env_file, hc, h]
  · cases hc : cd.canonical with
    | none => simp [load_env_file, hc]
    | some p =>
      by_cases he : cd.pathExists <;> simp [load_env_file, hc, he, h]

theorem load_skips_failing (pre : List Candidate) (l : List Candidate) (env : Env)
    (h : ∀ cd ∈ pre, candFails cd) :
    load_env_file (pre ++ l) env = load_env_file l env := by
  induction pre with
  | nil => rfl
  | cons cd t ih =>
    rw [List.cons_append, load_skip_one cd (t ++ l) env (h cd (List.mem_cons_self cd t))]
    exact ih fun x hx => h x (List.mem_cons_of_mem cd hx)

theorem load_success_head (c : Candidate) (l : List Candidate) (env : Env)
    (path contents : Str)
    (hcan : c.canonical = some path) (hex : c.pathExists = true)
    (hread : c.readResult = some contents) :
    load_env_file (c :: l) env = (processContents contents env, some path) := by
  simp [load_env_file, hcan, hex, hread]

theorem trimEnd_concat (l : Str) (a : Char) (h : isWhite a = false) :
    trimEnd (l ++ [a]) = l ++ [a] := by
  apply trimEnd_eq_self
  intro b hb
  rw [List.getLast?_concat] at hb
  injection hb with hb'
  rwa [← hb']

/-! ### Claims -/

/-- C3: `get_deepgram_api_key` returns `Ok` with the value of
`DEEPGRAM_API_KEY` when it is present, and otherwise returns `Err`
carrying the one fixed user-facing message; it is a total function of the
environment state with no side effects. -/
theorem C3_key_accessor (env : Env) :
    (∀ v, env DEEPGRAM_API_KEY = some v → get_deepgram_api_key env = Except.ok v) ∧
    (env DEEPGRAM_API_KEY = none →
      get_deepgram_api_key env = Except.error missingKeyMessage) := by
  constructor
  · intro v h; simp [get_deepgram_api_key, h]
  · intro h; simp [get_deepgram_api_key, h]

/-- C3 witness: with the key installed the accessor returns it; on the
empty environment it returns the fixed message. -/
theorem C3_key_accessor_witness :
    get_deepgram_api_key (setVar env0 DEEPGRAM_API_KEY (("k").data)) =
      Except.ok (("k").data) ∧
    get_deepgram_api_key env0 = Except.error missingKeyMessage :=
  ⟨(C3_key_accessor (setVar env0 DEEPGRAM_API_KEY (("k").data))).1 (("k").data) rfl,
   (C3_key_accessor env0).2 rfl⟩

/-- C9: the two accessors always agree: `get_deepgram_api_key` succeeds
exactly when `is_api_key_configured` returns `true`, on every environment
state. -/
theorem C9_accessors_agree (env : Env) :
    exceptIsOk (get_deepgram_api_key env) = is_api_key_configured env := by
  unfold get_deepgram_api_key is_api_key_configured exceptIsOk
  cases env DEEPGRAM_API_KEY <;> rfl

/-- C10: a line `DEEPGRAM_API_KEY=` or `DEEPGRAM_API_KEY=""` installs the
empty string; afterwards `is_api_key_configured` is `true` and
`get_deepgram_api_key` returns `Ok ""` rather than the missing-configuration
error. -/
theorem C10_empty_value (env : Env) :
    is_api_key_configured (processLine env (("DEEPGRAM_API_KEY=").data)) = true ∧
    get_deepgram_api_key (processLine env (("DEEPGRAM_API_KEY=").data)) =
      Except.ok [] ∧
    is_api_key_configured (processLine env (("DEEPGRAM_API_KEY=\"\"").data)) = true ∧
    get_deepgram_api_key (processLine env (("DEEPGRAM_API_KEY=\"\"").data)) =
      Except.ok [] := by
  refine ⟨rfl, rfl, rfl, rfl⟩

/-- C7: a line that trims to the empty string, or whose first trimmed
character is `#`, installs no entry and leaves the environment unchanged. -/
theorem C7_skip_blank_comment (env : Env) (l : Str)
    (h : trim l = [] ∨ startsWithChar '#' (trim l) = true) :
    processLine env l = env := by
  have hb : ((trim l).isEmpty || startsWithChar '#' (trim l)) = true := by
    rcases h with h | h
    · rw [h]; rfl
    · rw [h]; simp
  have hpe : parseEntry l = none := by
    simp only [parseEntry, hb]
    rfl
  simp [processLine, hpe]

/-- C7 witness: the comment line `# FOO=bar` leaves the empty environment
unchanged, so nothing is installed for `FOO`. -/
theorem C7_skip_blank_comment_witness :
    processLine env0 (("# FOO=bar").data) = env0 :=
  C7_skip_blank_comment env0 (("# FOO=bar").data) (Or.inr (by decide))

/-- C8: a line with no `=` character installs no entry, raises no error,
and processing continues with the remaining lines; a line with an `=` is
split by `splitOnce` at its first `=` into a key part (which contains no
`=`) and a value part. -/
theorem C8_no_equals (env : Env) (pre post : List Str) (l : Str)
    (h : ('=') ∉ l) :
    processLine env l = env ∧
    processLines (pre ++ l :: post) env = processLines (pre ++ post) env ∧
    (∀ (m a b : Str), splitOnce '=' m = some (a, b) →
      m = a ++ '=' :: b ∧ ('=') ∉ a) := by
  have hnone : splitOnce '=' (trim l) = none :=
    (splitOnce_eq_none_iff '=' (trim l)).mpr (fun hm => h (mem_of_mem_trim hm))
  have hpl : ∀ e : Env, processLine e l = e := by
    intro e
    have hpe : parseEntry l = none := by
      simp only [parseEntry]
      by_cases hb : ((trim l).isEmpty || startsWithChar '#' (trim l)) = true
      · simp [hb]
      · simp [hb, hnone]
    simp [processLine, hpe]
  refine ⟨hpl env, ?_, fun m a b hm => splitOnce_eq_some '=' m a b hm⟩
  rw [processLines_append, processLines_append]
  show processLines post (processLine (processLines pre env) l) = _
  rw [hpl]

/-- C8 witness: the `=`-free line `JUNK` between two well-formed lines
installs nothing and the surrounding lines are still processed. -/
theorem C8_no_equals_witness :
    processLines [("A=1").data, ("JUNK").data, ("B=2").data] env0 =
      processLines [("A=1").data, ("B=2").data] env0 :=
  (C8_no_equals env0 [("A=1").data] [("B=2").data] (("JUNK").data) (by decide)).2.1

/-- C5: when several lines install the same key, the final environment
maps the key to the value of the last such line. -/
theorem C5_last_wins (ls : List Str) (env : Env) (k v : Str)
    (h : lastEntry ls k = some v) :
    processLines ls env k = some v := by
  rw [processLines_lookup, h]
  rfl

/-- C5 witness: for the file `FOO=1`, `FOO=2` the installed value of `FOO`
is `2`, the value of the last line. -/
theorem C5_last_wins_witness :
    lastEntry [("FOO=1").data, ("FOO=2").data] (("FOO").data) = some (("2").data) ∧
    processLines [("FOO=1").data, ("FOO=2").data] env0 (("FOO").data) =
      some (("2").data) :=
  ⟨by decide,
   C5_last_wins [("FOO=1").data, ("FOO=2").data] env0 (("FOO").data) (("2").data)
     (by decide)⟩

/-- C2: when every candidate before a given one fails resolution or read
and that candidate is read successfully, the loader's result is exactly
the parse of that candidate's content, and candidates after it never
influence the result (the run equals the run on the truncated list). -/
theorem C2_first_success (pre : List Candidate) (c : Candidate)
    (rest : List Candidate) (env : Env) (path contents : Str)
    (hfail : ∀ cd ∈ pre, candFails cd)
    (hcan : c.canonical = some path) (hex : c.pathExists = true)
    (hread : c.readResult = some contents) :
    load_env_file (pre ++ c :: rest) env = (processContents contents env, some path) ∧
    load_env_file (pre ++ c :: rest) env = load_env_file (pre ++ [c]) env := by
  have h1 : load_env_file (pre ++ c :: rest) env =
      (processContents contents env, some path) := by
    rw [load_skips_failing pre (c :: rest) env hfail]
    exact load_success_head c rest env path contents hcan hex hread
  have h2 : load_env_file (pre ++ [c]) env =
      (processContents contents env, some path) := by
    rw [load_skips_failing pre [c] env hfail]
    exact load_success_head c [] env path contents hcan hex hread
  exact ⟨h1, h1.trans h2.symm⟩

/-- A candidate whose path resolution fails, used in concrete witnesses. -/
def candNoResolve : Candidate := ⟨none, true, some (("X=1").data)⟩

/-- A candidate that resolves, exists and reads, used in concrete witnesses. -/
def candReadable : Candidate :=
  ⟨some (("/a/.env").data), true, some (("FOO=1").data)⟩

/-- A later candidate that would also be readable, used in concrete witnesses. -/
def candLater : Candidate :=
  ⟨some (("/b/.env").data), true, some (("BAR=2").data)⟩

/-- C2 witness: with one failing candidate before a readable one and
another readable one after it, only the middle candidate's content is
parsed. -/
theorem C2_first_success_witness :
    load_env_file [candNoResolve, candReadable, candLater] env0 =
      (processContents (("FOO=1").data) env0, some (("/a/.env").data)) :=
  (C2_first_success [candNoResolve] candReadable [candLater] env0
    (("/a/.env").data) (("FOO=1").data) (by decide) rfl rfl rfl).1

/-- C6: when every candidate fails resolution or read, the loader leaves
the environment untouched and its diagnostic is the not-found message. -/
theorem C6_all_fail (cands : List Candidate) (env : Env)
    (h : ∀ cd ∈ cands, candFails cd) :
    load_env_file cands env = (env, none) ∧
    envMessage (load_env_file cands env).2 = ("No .env file found").data := by
  have h1 : load_env_file cands env = (env, none) := by
    have h2 := load_skips_failing cands [] env h
    rw [List.append_nil] at h2
    exact h2
  exact ⟨h1, by rw [h1]; rfl⟩

/-- C6 witness: a single unresolvable candidate mutates nothing and
yields the not-found diagnostic. -/
theorem C6_all_fail_witness :
    load_env_file [candNoResolve] env0 = (env0, none) ∧
    envMessage (load_env_file [candNoResolve] env0).2 =
      ("No .env file found").data :=
  C6_all_fail [candNoResolve] env0 (by decide)

/-- C4: the loader is idempotent: running it twice over the same candidate
list yields the same final environment as running it once. -/
theorem C4_idempotent (cands : List Candidate) (env : Env) :
    (load_env_file cands (load_env_file cands env).1).1 =
      (load_env_file cands env).1 := by
  induction cands generalizing env with
  | nil => rfl
  | cons c rest ih =>
    cases hc : c.canonical with
    | none =>
      have hskip : ∀ e, load_env_file (c :: rest) e = load_env_file rest e :=
        fun e => load_skip_one c rest e (Or.inl hc)
      rw [hskip, hskip]
      exact ih env
    | some path =>
      by_cases he : c.pathExists = true
      · cases hr : c.readResult with
        | none =>
          have hskip : ∀ e, load_env_file (c :: rest) e = load_env_file rest e :=
            fun e => load_skip_one c rest e (Or.inr (Or.inr hr))
          rw [hskip, hskip]
          exact ih env
        | some contents =>
          have hsucc : ∀ e, load_env_file (c :: rest) e =
              (processContents contents e, some path) :=
            fun e => load_success_head c rest e path contents hc he hr
          rw [hsucc, hsucc]
          show processContents contents (processContents contents env) =
            processContents contents env
          exact processContents_idem contents env
      · have he' : c.pathExists = false := by
          cases hpe : c.pathExists
          · rfl
          · exact absurd hpe he
        have hskip : ∀ e, load_env_file (c :: rest) e = load_env_file rest e :=
          fun e => load_skip_one c rest e (Or.inr (Or.inl he'))
        rw [hskip, hskip]
        exact ih env

/-- C1 counterexample: for the line `FOO=""bar""` the claim's "exactly one
matching outer pair" would install `"bar"`, but the code's `trim_matches`
strips every leading and trailing quote character and installs `bar`. -/
theorem C1_counterexample :
    processLine env0 (("FOO=\"\"bar\"\"").data) (("FOO").data) =
      some (("bar").data) ∧
    (("bar").data) ≠ (("\"bar\"").data) := by
  exact ⟨rfl, by decide⟩

/-- C1 (amended): the parser strips ALL leading and trailing `"` characters
from the trimmed value, then all leading and trailing `'` characters; in
particular, when the value is one layer of matching quotes around an
interior that neither starts nor ends with a quote character, exactly that
pair is removed and the interior (spacing included) is preserved. -/
theorem C1_quote_strip (env : Env) (s : Str)
    (hdq : s.head? ≠ some '"') (hsq : s.head? ≠ some '\'')
    (ldq : s.getLast? ≠ some '"') (lsq : s.getLast? ≠ some '\'') :
    processLine env ((("FOO=\"").data ++ s) ++ [('"')]) =
      setVar env (("FOO").data) s ∧
    processLine env ((("FOO='").data ++ s) ++ [('\'')]) =
      setVar env (("FOO").data) s := by
  constructor
  · show processLine env ('F' :: 'O' :: 'O' :: '=' :: ('"') :: (s ++ [('"')])) = _
    have hvtrim : trim (('"') :: (s ++ [('"')])) = ('"') :: (s ++ [('"')]) := by
      unfold trim
      rw [show trimStart (('"') :: (s ++ [('"')])) = ('"') :: (s ++ [('"')]) from rfl]
      exact trimEnd_concat (('"') :: s) '"' rfl
    have hltrim : trim ('F' :: 'O' :: 'O' :: '=' :: ('"') :: (s ++ [('"')])) =
        'F' :: 'O' :: 'O' :: '=' :: ('"') :: (s ++ [('"')]) := by
      unfold trim
      rw [show trimStart ('F' :: 'O' :: 'O' :: '=' :: ('"') :: (s ++ [('"')])) =
            'F' :: 'O' :: 'O' :: '=' :: ('"') :: (s ++ [('"')]) from rfl]
      exact trimEnd_concat ('F' :: 'O' :: 'O' :: '=' :: ('"') :: s) '"' rfl
    have hpe : parseEntry ('F' :: 'O' :: 'O' :: '=' :: ('"') :: (s ++ [('"')])) =
        some ((("FOO").data), s) := by
      simp only [parseEntry, hltrim]
      rw [show splitOnce '=' ('F' :: 'O' :: 'O' :: '=' :: ('"') :: (s ++ [('"')])) =
            some ((("FOO").data), ('"') :: (s ++ [('"')])) from rfl]
      show (if (trim (("FOO").data)).isEmpty = true then none
            else some (trim (("FOO").data),
              trimMatchesChar '\''
                (trimMatchesChar '"' (trim (('"') :: (s ++ [('"')])))))) =
          some ((("FOO").data), s)
      rw [hvtrim, trimMatchesChar_wrap '"' s hdq ldq,
          trimMatchesChar_eq_self '\'' s hsq lsq]
      rfl
    simp [processLine, hpe]
  · show processLine env ('F' :: 'O' :: 'O' :: '=' :: ('\'') :: (s ++ [('\'')])) = _
    have hvtrim : trim (('\'') :: (s ++ [('\'')])) = ('\'') :: (s ++ [('\'')]) := by
      unfold trim
      rw [show trimStart (('\'') :: (s ++ [('\'')])) = ('\'') :: (s ++ [('\'')]) from rfl]
      exact trimEnd_concat (('\'') :: s) '\'' rfl
    have hltrim : trim ('F' :: 'O' :: 'O' :: '=' :: ('\'') :: (s ++ [('\'')])) =
        'F' :: 'O' :: 'O' :: '=' :: ('\'') :: (s ++ [('\'')]) := by
      unfold trim
      rw [show trimStart ('F' :: 'O' :: 'O' :: '=' :: ('\'') :: (s ++ [('\'')])) =
            'F' :: 'O' :: 'O' :: '=' :: ('\'') :: (s ++ [('\'')]) from rfl]
      exact trimEnd_concat ('F' :: 'O' :: 'O' :: '=' :: ('\'') :: s) '\'' rfl
    have hdqv : (('\'') :: (s ++ [('\'')])).head? ≠ some '"' := by simp
    have hdqL : (('\'') :: (s ++ [('\'')])).getLast? ≠ some '"' := by
      rw [show ('\'') :: (s ++ [('\'')]) = (('\'') :: s) ++ [('\'')] from rfl,
          List.getLast?_concat]
      simp
    have hpe : parseEntry ('F' :: 'O' :: 'O' :: '=' :: ('\'') :: (s ++ [('\'')])) =
        some ((("FOO").data), s) := by
      simp only [parseEntry, hltrim]
      rw [show splitOnce '=' ('F' :: 'O' :: 'O' :: '=' :: ('\'') :: (s ++ [('\'')])) =
            some ((("FOO").data), ('\'') :: (s ++ [('\'')])) from rfl]
      show (if (trim (("FOO").data)).isEmpty = true then none
            else some (trim (("FOO").data),
              trimMatchesChar '\''
                (trimMatchesChar '"' (trim (('\'') :: (s ++ [('\'')])))))) =
          some ((("FOO").data), s)
      rw [hvtrim, trimMatchesChar_eq_self '"' (('\'') :: (s ++ [('\'')])) hdqv hdqL,
          trimMatchesChar_wrap '\'' s hsq lsq]
      rfl
    simp [processLine, hpe]

/-- C1 witness: for the line `FOO="bar baz"` the installed value is
exactly `bar baz`, the outer quotes stripped and the inner spacing
preserved. -/
theorem C1_quote_strip_witness :
    processLine env0 (("FOO=\"bar baz\"").data) =
      setVar env0 (("FOO").data) (("bar baz").data) :=
  (C1_quote_strip env0 (("bar baz").data)
    (by decide) (by decide) (by decide) (by decide)).1

end VoiceTranscription
